import Mathlib

/-!
Shallow embedding of the delegation tracker in
`src/08-multi-agent-orchestration.ts`: the `toolRuns` registry, the
progress tickers (`startTicker` / `finishTicker`), the text-normalization
routine `extractText`, and the per-message event loop of `run()`.

Machine conventions: JavaScript runtime values that flow through the
untyped parts of the code (tool-result `content`, stream-event payloads)
are modelled by the inductive `JSValue`; timestamps are `Nat`
milliseconds (`Date.now()` is passed in explicitly at each point the
source calls it); `setInterval` handles are modelled as indices into a
grow-only list of started timers, with `clearInterval` recorded in a
`cancelled` list; the monetary cost is modelled exactly, in units of
10^-4 dollars, so that `toFixed(4)` becomes exact decimal rendering.
Expressions that can raise a `TypeError` at runtime are modelled in
`Except String`.
-/

mutual
/-- Model of a JavaScript runtime value, covering the shapes that reach the
untyped parts of the tracker (strings, numbers, booleans, null, undefined,
arrays, plain objects). Arrays and field lists are mutual inductives so
that recursion over values stays structural. -/
inductive JSValue where
  | vstr : String → JSValue
  | vnum : Int → JSValue
  | vbool : Bool → JSValue
  | vnull : JSValue
  | vundefined : JSValue
  | varr : JSArr → JSValue
  | vobj : JSFields → JSValue

/-- The element list of a JS array value. -/
inductive JSArr where
  | nil : JSArr
  | cons : JSValue → JSArr → JSArr

/-- The key/value field list of a JS object value. -/
inductive JSFields where
  | nil : JSFields
  | cons : String → JSValue → JSFields → JSFields
end

/-- Builds a JS array value from a Lean list of values. -/
def arrOf : List JSValue → JSArr
  | [] => .nil
  | x :: xs => .cons x (arrOf xs)

/-- Builds a JS object field list from a Lean association list. -/
def fieldsOf : List (String × JSValue) → JSFields
  | [] => .nil
  | (k, v) :: rest => .cons k v (fieldsOf rest)

/-- Object field lookup; an absent key reads as `undefined`, as in JS. -/
def lookupD : JSFields → String → JSValue
  | .nil, _ => .vundefined
  | .cons k v rest, key => if k = key then v else lookupD rest key

/-- Property access `v.k` for a value already known not to be
null/undefined (every use in the source is behind such a guard);
primitives and arrays have none of the properties the tracker reads,
so they yield `undefined`. -/
def getProp : JSValue → String → JSValue
  | .vobj fs, k => lookupD fs k
  | _, _ => .vundefined

/-- Optional chaining `v?.k`: null and undefined short-circuit to
`undefined` instead of throwing. -/
def optChain (v : JSValue) (k : String) : JSValue :=
  match v with
  | .vnull => .vundefined
  | .vundefined => .vundefined
  | _ => getProp v k

/-- JS truthiness. -/
def jsTruthy : JSValue → Bool
  | .vstr s => s != ""
  | .vnum n => n != 0
  | .vbool b => b
  | .vnull => false
  | .vundefined => false
  | .varr _ => true
  | .vobj _ => true

/-- The `typeof v === 'object'` test (true for objects, arrays and null). -/
def isObjType : JSValue → Bool
  | .vobj _ => true
  | .varr _ => true
  | .vnull => true
  | _ => false

/-- Key-presence test on a field list. -/
def fieldsHave : JSFields → String → Bool
  | .nil, _ => false
  | .cons k _ rest, key => k = key || fieldsHave rest key

/-- The `'text' in v` presence test (only objects carry fields here). -/
def hasKey : JSValue → String → Bool
  | .vobj fs, k => fieldsHave fs k
  | _, _ => false

/-- Nullish coalescing against the empty string: models `x ?? ''`. -/
def coalesce : JSValue → JSValue
  | .vnull => .vstr ""
  | .vundefined => .vstr ""
  | v => v

mutual
/-- The JS `String(...)` conversion for the values of the model. -/
def jsString : JSValue → String
  | .vstr s => s
  | .vnum n => toString n
  | .vbool b => if b then "true" else "false"
  | .vnull => "null"
  | .vundefined => "undefined"
  | .vobj _ => "[object Object]"
  | .varr xs => String.intercalate "," (jsArrStrings xs)

/-- String conversion of array elements as `Array.prototype.join` renders
them: null and undefined become the empty string. -/
def jsArrStrings : JSArr → List String
  | .nil => []
  | .cons x xs =>
    (match x with
     | .vnull => ""
     | .vundefined => ""
     | v => jsString v) :: jsArrStrings xs
end

/-- The JS `String.prototype.trim()`: strip leading and trailing
whitespace. Implemented by structural recursion over the character list so
that the kernel can evaluate it on concrete inputs. -/
def jsTrim (s : String) : String :=
  String.mk (((s.data.dropWhile Char.isWhitespace).reverse.dropWhile Char.isWhitespace).reverse)

/-- One element of the `content.map(...)` in `extractText` (lines 22-28 of
the source): a string passes through, an object with a `text` field is
stringified, anything else contributes the empty string. -/
def arrElemText (e : JSValue) : String :=
  match e with
  | .vstr s => s
  | _ =>
    if jsTruthy e && isObjType e && hasKey e "text" then
      jsString (coalesce (getProp e "text"))
    else ""

/-- The element-wise `content.map(...)` of `extractText` over a JS array. -/
def arrTexts : JSArr → List String
  | .nil => []
  | .cons x xs => arrElemText x :: arrTexts xs

/-- Embedding of `extractText` (source lines 18-36): a bare string is
trimmed; an array is mapped element-wise, joined with single spaces and
trimmed; a single object with a `text` field is stringified and trimmed;
everything else yields the empty string. -/
def extractText (content : JSValue) : String :=
  match content with
  | .vstr s => jsTrim s
  | .varr xs => jsTrim (String.intercalate " " (arrTexts xs))
  | _ =>
    if jsTruthy content && isObjType content && hasKey content "text" then
      jsTrim (jsString (coalesce (getProp content "text")))
    else ""

example : extractText (.vstr "  hello ") = "hello" := by decide
example : extractText (.vobj (fieldsOf [("text", .vstr "hello")])) = "hello" := by decide
example :
    extractText (.varr (arrOf [.vstr "a", .vobj (fieldsOf [("text", .vstr "b")]), .vstr "c"])) =
      "a b c" := by
  decide
example : extractText (.varr .nil) = "" := by decide
example : extractText (.varr (arrOf [.vnum 42, .vnull])) = "" := by decide
example : extractText (.varr (arrOf [.vstr "a", .vnum 42, .vstr "c"])) = "a  c" := by decide

/-- One registry entry of the `toolRuns` map (source line 44): the label
fixed at dispatch, the `start` timestamp (ms), and the optional handle of
the progress ticker (`setInterval` result). -/
structure Entry where
  label : String
  start : Nat
  ticker : Option Nat
  deriving DecidableEq

/-- A started interval timer, as recorded at its `setInterval` call: the
label and start time captured by the callback closure, and the fixed
five-second period. -/
structure Timer where
  label : String
  start : Nat
  intervalMs : Nat
  deriving DecidableEq

/-- The tracker state: the `toolRuns` registry (association list with the
JS `Map` insert-or-replace semantics), the list of every timer ever
started (its index is the `setInterval` handle), and the handles passed to
`clearInterval`. -/
structure TrackerState where
  toolRuns : List (String × Entry)
  timers : List Timer
  cancelled : List Nat
  deriving DecidableEq

/-- The state at the start of `run()`: empty registry, no timers. -/
def initState : TrackerState := ⟨[], [], []⟩

/-- JS `Map.get`. -/
def mapGet : List (String × Entry) → String → Option Entry
  | [], _ => none
  | (k, v) :: rest, key => if k = key then some v else mapGet rest key

/-- JS `Map.set`: replace in place if the key is present, else append. -/
def mapSet : List (String × Entry) → String → Entry → List (String × Entry)
  | [], key, v => [(key, v)]
  | (k, w) :: rest, key, v =>
    if k = key then (key, v) :: rest else (k, w) :: mapSet rest key v

/-- JS `Map.delete`. -/
def mapDelete (m : List (String × Entry)) (key : String) : List (String × Entry) :=
  m.filter (fun p => p.1 ≠ key)

/-- The elapsed-seconds computation `Math.round((now - start) / 1000)` of
source lines 50 and 64, for `now ≥ start`. -/
def elapsedSec (start now : Nat) : Nat := (now - start + 500) / 1000

/-- One console line of the tracker, one constructor per `console.log`
call site in the source. -/
inductive Output where
  | textOut : String → Output
  | delegating : String → String → Output
  | usingTool : String → Output
  | resultLine : String → String → Output
  | update : String → String → Output
  | tick : String → Nat → Output
  | returned : String → Nat → Output
  | durationLine : Nat → Output
  | costLine : String → Output
  deriving DecidableEq

/-- Renders an output constructor to the exact template string of its
`console.log` call in the source. -/
def render : Output → String
  | .textOut t => t
  | .delegating lab suffix => "\n🚀 Delegating to " ++ lab ++ " subagent" ++ suffix
  | .usingTool name => "\n🚀 Using tool: " ++ name
  | .resultLine lab s => "\n📥 " ++ lab ++ " result: " ++ s
  | .update lab s => "\n🔄 " ++ lab ++ " update: " ++ s
  | .tick lab e => "\n⏳ " ++ lab ++ " subagent still working (" ++ toString e ++ "s elapsed)..."
  | .returned lab e => "\n✅ " ++ lab ++ " subagent returned after " ++ toString e ++ "s."
  | .durationLine ms => "\n⏱️ Total duration: " ++ toString ms ++ "ms"
  | .costLine c => "\n💰 Total cost: $" ++ c

/-- Embedding of `startTicker` (source lines 46-55): looks up the entry,
and if present starts an interval timer whose callback captures the label
and the entry start time, then stores the handle in the entry. -/
def startTicker (s : TrackerState) (id label : String) : TrackerState :=
  match mapGet s.toolRuns id with
  | none => s
  | some entry =>
    let h := s.timers.length
    { s with
      timers := s.timers ++ [⟨label, entry.start, 5000⟩]
      toolRuns := mapSet s.toolRuns id { entry with ticker := some h } }

/-- One firing of the interval callback installed by `startTicker` (source
lines 49-52): reports the seconds elapsed since the captured start time. -/
def fireTicker (s : TrackerState) (h : Nat) (now : Nat) : List Output :=
  match s.timers[h]? with
  | some t => [.tick t.label (elapsedSec t.start now)]
  | none => []

/-- Embedding of `finishTicker` (source lines 57-68): if the id is
registered, clear its interval timer if any, emit the "returned after Ns"
line when the label argument is truthy (`if (label)` at line 63 — an
absent or empty-string label suppresses the line), and delete the entry.
Unknown ids are a no-op. -/
def finishTicker (s : TrackerState) (id : String) (label : Option String) (now : Nat) :
    TrackerState × List Output :=
  match mapGet s.toolRuns id with
  | none => (s, [])
  | some entry =>
    let s1 :=
      match entry.ticker with
      | some h => { s with cancelled := s.cancelled ++ [h] }
      | none => s
    let outs :=
      match label with
      | some l =>
        if l = "" then [] else [Output.returned l (elapsedSec entry.start now)]
      | none => []
    ({ s1 with toolRuns := mapDelete s1.toolRuns id }, outs)

/-- A content block of an assistant message as the loop destructures it
(source lines 127-156): a text block, a `tool_use` block (with the fields
read through the cast at lines 134-137 plus `block.name`), or any other
block, from which only `content` and `tool_use_id` are read. -/
inductive Block where
  | text : String → Block
  | toolUse (id : Option String) (name : String) (subagent descr prompt : Option String) : Block
  | other (content : Option JSValue) (toolUseId : Option String) : Block

/-- JS truthiness of an optional string (`undefined` and `''` are falsy). -/
def strTruthy : Option String → Bool
  | some s => s != ""
  | none => false

/-- The `else` arm of the `tool_use` branch (source lines 144-149): register
the generic tool under its name when the id is truthy, emit the
"Using tool" line, and start no ticker. -/
def genericToolUse (s : TrackerState) (id : Option String) (name : String) (now : Nat) :
    TrackerState × List Output :=
  let s1 :=
    match id with
    | some i =>
      if i = "" then s else { s with toolRuns := mapSet s.toolRuns i ⟨name, now, none⟩ }
    | none => s
  (s1, [.usingTool name])

/-- The context suffix of the dispatch line (source lines 140-141):
`description ?? prompt`, truncated to 90 characters with an ellipsis. -/
def contextSuffix (descr prompt : Option String) : String :=
  match descr.or prompt with
  | some c =>
    if c = "" then ""
    else " — " ++ String.mk (c.data.take 90) ++ (if 90 < c.length then "…" else "")
  | none => ""

/-- The label used for a result block (source line 159):
`toolUseId ? toolRuns.get(toolUseId)?.label ?? 'subagent' : 'subagent'`. -/
def labelFor (s : TrackerState) (toolUseId : Option String) : String :=
  match toolUseId with
  | some t =>
    if t = "" then "subagent" else ((mapGet s.toolRuns t).map Entry.label).getD "subagent"
  | none => "subagent"

/-- The fall-through arm for non-text, non-tool_use blocks (source lines
153-165): normalize `content ?? ''`, emit the "result" line when the
summary is non-empty, then finish the ticker for a truthy `tool_use_id`,
passing the stored label (possibly undefined) through. -/
def handleOtherBlock (s : TrackerState) (content : Option JSValue) (toolUseId : Option String)
    (now : Nat) : TrackerState × List Output :=
  let summary := extractText (content.getD (.vstr ""))
  let outs := if summary = "" then [] else [Output.resultLine (labelFor s toolUseId) summary]
  match toolUseId with
  | some t =>
    if t = "" then (s, outs)
    else
      let r := finishTicker s t ((mapGet s.toolRuns t).map Entry.label) now
      (r.1, outs ++ r.2)
  | none => (s, outs)

/-- Handles one content block of an assistant message (source lines
127-166). For a `tool_use` block with a truthy `subagent_type` and id
(lines 138-143): register the entry, emit the dispatch line, start the
ticker; otherwise fall back to the generic tool arm. -/
def handleBlock (s : TrackerState) (b : Block) (now : Nat) : TrackerState × List Output :=
  match b with
  | .text t => (s, [.textOut t])
  | .toolUse id name subag descr prompt =>
    match subag, id with
    | some lab, some i =>
      if lab = "" || i = "" then genericToolUse s id name now
      else
        let s1 := { s with toolRuns := mapSet s.toolRuns i ⟨lab, now, none⟩ }
        let s2 := startTicker s1 i lab
        (s2, [.delegating lab (contextSuffix descr prompt)])
    | _, _ => genericToolUse s id name now
  | .other content toolUseId => handleOtherBlock s content toolUseId now

/-- Handles the content blocks of one assistant message in order. -/
def handleBlocks (s : TrackerState) : List Block → Nat → TrackerState × List Output
  | [], _ => (s, [])
  | b :: bs, now =>
    let r1 := handleBlock s b now
    let r2 := handleBlocks r1.1 bs now
    (r2.1, r1.2 ++ r2.2)

/-- The `typeof x === 'string' ? x : ''` read of `event.type`
(source line 169). -/
def asStr : JSValue → String
  | .vstr s => s
  | _ => ""

/-- The `typeof x === 'string' ? x : undefined` read of `event.tool_use_id`
(source line 171). -/
def asStrOpt : JSValue → Option String
  | .vstr s => some s
  | _ => none

/-- The progress text extracted from `event.delta` (source lines 173-186):
a truthy delta is probed for a string `text`, a string `output`, an array
`output`, then an array `content`. Always yields a string. -/
def deltaProgress (d : JSValue) : String :=
  if jsTruthy d then
    match getProp d "text" with
    | .vstr t => t
    | _ =>
      match getProp d "output" with
      | .vstr o => o
      | .varr xs => extractText (.varr xs)
      | _ =>
        match getProp d "content" with
        | .varr xs => extractText (.varr xs)
        | _ => ""
  else ""

/-- The `event.output_text_delta?.text` read (source lines 188-189),
with the optional chaining of the source. -/
def otdTextOf (fields : JSFields) : JSValue :=
  optChain (lookupD fields "output_text_delta") "text"

/-- The value held by the `progress` variable when line 193 calls
`progress.trim()`: the delta-derived string, unless it is empty and
`output_text_delta.text` is truthy, in which case that raw value is
assigned without a type check (source lines 189-191). -/
def finalProgress (fields : JSFields) : JSValue :=
  let dp := deltaProgress (lookupD fields "delta")
  let ot := otdTextOf fields
  if dp = "" && jsTruthy ot then ot else .vstr dp

/-- A `.trim()` call on a JS value: only strings have the method; any
other receiver raises a TypeError. -/
def trimE : JSValue → Except String String
  | .vstr s => .ok (jsTrim s)
  | _ => .error "TypeError: progress.trim is not a function"

/-- Embedding of the `stream_event` branch (source lines 167-199). The
event is an arbitrary JS object. Events whose type does not start with
"tool_result" are ignored; otherwise the progress text is extracted and
logged if non-empty, and for the exact type "tool_result" with a truthy
`tool_use_id` the ticker is finished with the resolved label. -/
def handleStreamEvent (s : TrackerState) (fields : JSFields) (now : Nat) :
    Except String (TrackerState × List Output) :=
  if (asStr (lookupD fields "type")).data.take 11 = "tool_result".data then
    match trimE (finalProgress fields) with
    | .error e => .error e
    | .ok p =>
      match asStrOpt (lookupD fields "tool_use_id") with
      | some t =>
        if t != "" && asStr (lookupD fields "type") = "tool_result" then
          .ok ((finishTicker s t (some (labelFor s (some t))) now).1,
            (if p = "" then [] else [Output.update (labelFor s (some t)) p]) ++
              (finishTicker s t (some (labelFor s (some t))) now).2)
        else .ok (s, if p = "" then [] else [Output.update (labelFor s (some t)) p])
      | none => .ok (s, if p = "" then [] else [Output.update (labelFor s none) p])
  else .ok (s, [])

/-- One decimal digit as a character. -/
def digitChar (d : Nat) : Char := Char.ofNat (48 + d % 10)

/-- The four fractional digits of a cost given in 10^-4 dollars. -/
def pad4 (n : Nat) : String :=
  String.mk [digitChar (n / 1000), digitChar (n / 100), digitChar (n / 10), digitChar n]

/-- The JS `(costE4 / 10000).toFixed(4)` rendering of a cost that is an
exact multiple of 10^-4 dollars. -/
def toFixed4 (costE4 : Nat) : String := toString (costE4 / 10000) ++ "." ++ pad4 costE4

/-- One message of the event sequence as the loop at source lines 125-204
distinguishes them: an assistant message with its content blocks, a raw
stream event, the final result message (duration in ms, cost in 10^-4
dollars), or any other message type, which the loop ignores. -/
inductive Message where
  | assistant : List Block → Message
  | streamEvent : JSFields → Message
  | result (durationMs : Nat) (costE4 : Nat) : Message
  | other : Message

/-- Processes one message of the `for await` loop (source lines 125-204),
at the given current time. -/
def processMessage (s : TrackerState) (m : Message) (now : Nat) :
    Except String (TrackerState × List Output) :=
  match m with
  | .assistant blocks => .ok (handleBlocks s blocks now)
  | .streamEvent fields => handleStreamEvent s fields now
  | .result ms cost => .ok (s, [.durationLine ms, .costLine (toFixed4 cost)])
  | .other => .ok (s, [])

/-- Drains a whole event sequence, threading the state and concatenating
the output; a thrown TypeError aborts the run as in JS. -/
def runTrace (s : TrackerState) : List (Message × Nat) → Except String (TrackerState × List Output)
  | [] => .ok (s, [])
  | (m, now) :: rest =>
    match processMessage s m now with
    | .error e => .error e
    | .ok r =>
      match runTrace r.1 rest with
      | .error e => .error e
      | .ok r2 => .ok (r2.1, r.2 ++ r2.2)

/-- The cleanup loop body over a list of ids: `finishTicker(id)` with no
label argument for each. -/
def cleanupIds : TrackerState → List String → TrackerState
  | s, [] => s
  | s, i :: is => cleanupIds (finishTicker s i none 0).1 is

/-- The end-of-run cleanup (source lines 206-208): finish the ticker of
every id still in the registry, with no "returned" line. -/
def runCleanup (s : TrackerState) : TrackerState :=
  cleanupIds s (s.toolRuns.map Prod.fst)

/-- A key is absent from the registry exactly when `mapGet` misses. -/
theorem mapGet_eq_none {m : List (String × Entry)} {k : String} :
    mapGet m k = none ↔ k ∉ m.map Prod.fst := by
  induction m with
  | nil => simp [mapGet]
  | cons p rest ih =>
    obtain ⟨k1, v1⟩ := p
    by_cases h : k1 = k
    · subst h
      simp [mapGet]
    · have hstep : mapGet ((k1, v1) :: rest) k = mapGet rest k := by simp [mapGet, h]
      rw [hstep, List.map_cons, List.mem_cons, ih]
      constructor
      · intro hnot hmem
        rcases hmem with h1 | h2
        · exact h h1.symm
        · exact hnot h2
      · intro hnot hmem
        exact hnot (Or.inr hmem)

/-- Setting a fresh key appends the pair. -/
theorem mapSet_fresh {m : List (String × Entry)} {k : String} (v : Entry)
    (h : mapGet m k = none) : mapSet m k v = m ++ [(k, v)] := by
  induction m with
  | nil => simp [mapSet]
  | cons p rest ih =>
    obtain ⟨k1, v1⟩ := p
    by_cases hk : k1 = k
    · simp [mapGet, hk] at h
    · simp only [mapGet, hk, if_false, if_neg hk] at h
      simp [mapSet, hk, ih h]

/-- Looking up a key just appended to a registry that lacked it. -/
theorem mapGet_append_self {m : List (String × Entry)} {k : String} (e : Entry)
    (h : mapGet m k = none) : mapGet (m ++ [(k, e)]) k = some e := by
  induction m with
  | nil => simp [mapGet]
  | cons p rest ih =>
    obtain ⟨k1, v1⟩ := p
    by_cases hk : k1 = k
    · simp [mapGet, hk] at h
    · simp only [mapGet, hk, if_neg hk] at h
      simpa [mapGet, hk] using ih h

/-- Overwriting a key just appended to a registry that lacked it. -/
theorem mapSet_append_self {m : List (String × Entry)} {k : String} (e v : Entry)
    (h : mapGet m k = none) : mapSet (m ++ [(k, e)]) k v = m ++ [(k, v)] := by
  induction m with
  | nil => simp [mapSet]
  | cons p rest ih =>
    obtain ⟨k1, v1⟩ := p
    by_cases hk : k1 = k
    · simp [mapGet, hk] at h
    · simp only [mapGet, hk, if_neg hk] at h
      simp [mapSet, hk, ih h]

/-- A successful lookup in a duplicate-free registry splits it around the
found pair, with the key absent on both sides. -/
theorem mapGet_some_split {m : List (String × Entry)} {k : String} {e : Entry}
    (hn : (m.map Prod.fst).Nodup) (h : mapGet m k = some e) :
    ∃ pre post, m = pre ++ (k, e) :: post ∧ mapGet pre k = none ∧ mapGet post k = none := by
  induction m with
  | nil => simp [mapGet] at h
  | cons p rest ih =>
    obtain ⟨k1, v1⟩ := p
    rw [List.map_cons, List.nodup_cons] at hn
    by_cases hk : k1 = k
    · subst hk
      have hve : v1 = e := by simpa [mapGet] using h
      subst hve
      exact ⟨[], rest, by simp, by simp [mapGet], mapGet_eq_none.mpr hn.1⟩
    · simp only [mapGet, if_neg hk] at h
      obtain ⟨pre, post, h1, h2, h3⟩ := ih hn.2 h
      exact ⟨(k1, v1) :: pre, post, by simp [h1], by simp [mapGet, hk, h2], h3⟩

/-- Deleting the found key of a split registry removes exactly its pair. -/
theorem mapDelete_split {pre post : List (String × Entry)} {k : String} (e : Entry)
    (h1 : mapGet pre k = none) (h2 : mapGet post k = none) :
    mapDelete (pre ++ (k, e) :: post) k = pre ++ post := by
  have hp : pre.filter (fun p => !decide (p.1 = k)) = pre := by
    apply List.filter_eq_self.mpr
    intro p hmem
    simp only [Bool.not_eq_eq_eq_not, Bool.not_true, decide_eq_false_iff_not]
    intro hcontra
    exact mapGet_eq_none.mp h1 (List.mem_map.mpr ⟨p, hmem, hcontra⟩)
  have hq : post.filter (fun p => !decide (p.1 = k)) = post := by
    apply List.filter_eq_self.mpr
    intro p hmem
    simp only [Bool.not_eq_eq_eq_not, Bool.not_true, decide_eq_false_iff_not]
    intro hcontra
    exact mapGet_eq_none.mp h2 (List.mem_map.mpr ⟨p, hmem, hcontra⟩)
  simp only [mapDelete, List.filter_append, List.filter_cons]
  simp [hp, hq]


/-- The interval handles currently owned by registry entries. -/
def regHandles (s : TrackerState) : List Nat :=
  s.toolRuns.filterMap (fun p => p.2.ticker)

/-- Every interval handle that has been started and not orphaned: the ones
owned by registered entries together with the cleared ones. -/
def handleBag (s : TrackerState) : Multiset Nat :=
  (regHandles s : Multiset Nat) + (s.cancelled : Multiset Nat)

/-- The unconditional registry invariant: keys are unique (JS `Map`). -/
def InvK (s : TrackerState) : Prop := (s.toolRuns.map Prod.fst).Nodup

/-- The timer-accounting invariant, maintained as long as no registered
id is dispatched a second time: keys are unique, every started timer is
owned by exactly one registry entry or has been cleared exactly once,
and handles index into the started-timer list. -/
def TInv (s : TrackerState) : Prop :=
  InvK s ∧ (handleBag s).Nodup ∧ (∀ h ∈ handleBag s, h < s.timers.length) ∧
    Multiset.card (handleBag s) = s.timers.length

theorem tInv_initState : TInv initState := by
  refine ⟨?_, ?_, ?_, ?_⟩ <;> simp [InvK, initState, handleBag, regHandles]

/-- The registry after `finishTicker`: the id is deleted when present. -/
theorem finishTicker_toolRuns (s : TrackerState) (id : String) (lab : Option String) (now : Nat) :
    ((finishTicker s id lab now).1).toolRuns =
      if (mapGet s.toolRuns id).isSome then mapDelete s.toolRuns id else s.toolRuns := by
  unfold finishTicker
  cases hm : mapGet s.toolRuns id with
  | none => simp
  | some e => cases ht : e.ticker <;> simp [ht]

/-- `finishTicker` starts no timer. -/
theorem finishTicker_timers (s : TrackerState) (id : String) (lab : Option String) (now : Nat) :
    ((finishTicker s id lab now).1).timers = s.timers := by
  unfold finishTicker
  cases hm : mapGet s.toolRuns id with
  | none => simp
  | some e => cases ht : e.ticker <;> simp [ht]

/-- `finishTicker` clears exactly the ticker handle of the found entry. -/
theorem finishTicker_cancelled (s : TrackerState) (id : String) (lab : Option String) (now : Nat) :
    ((finishTicker s id lab now).1).cancelled =
      s.cancelled ++
        (match mapGet s.toolRuns id with
         | some e => e.ticker.toList
         | none => []) := by
  unfold finishTicker
  cases hm : mapGet s.toolRuns id with
  | none => simp
  | some e => cases ht : e.ticker <;> simp [ht]

/-- The output of `finishTicker`: one "returned" line exactly when the id
is registered and a truthy label argument was passed. -/
theorem finishTicker_out (s : TrackerState) (id : String) (lab : Option String) (now : Nat) :
    (finishTicker s id lab now).2 =
      match mapGet s.toolRuns id, lab with
      | some e, some l =>
        if l = "" then [] else [Output.returned l (elapsedSec e.start now)]
      | _, _ => [] := by
  unfold finishTicker
  cases hm : mapGet s.toolRuns id with
  | none => simp
  | some e => cases ht : e.ticker <;> cases lab <;> simp [ht]

/-- `finishTicker` never breaks the key invariant. -/
theorem invK_finishTicker (s : TrackerState) (id : String) (lab : Option String) (now : Nat)
    (h : InvK s) : InvK (finishTicker s id lab now).1 := by
  unfold InvK
  rw [finishTicker_toolRuns]
  cases hm : mapGet s.toolRuns id with
  | none => simpa using h
  | some e =>
    obtain ⟨pre, post, hsplit, hpre, hpost⟩ := mapGet_some_split h hm
    simp only [Option.isSome_some, if_pos, hsplit, mapDelete_split e hpre hpost]
    rw [InvK, hsplit] at h
    simp only [List.map_append, List.map_cons] at h ⊢
    exact (List.nodup_cons.mp (List.nodup_middle.mp h)).2

/-- `finishTicker` moves a handle from a registry entry to the cleared
list (or touches nothing), leaving the overall handle bag unchanged. -/
theorem handleBag_finishTicker (s : TrackerState) (id : String) (lab : Option String) (now : Nat)
    (hK : InvK s) : handleBag (finishTicker s id lab now).1 = handleBag s := by
  unfold handleBag regHandles
  rw [finishTicker_toolRuns, finishTicker_cancelled]
  cases hm : mapGet s.toolRuns id with
  | none => simp
  | some e =>
    obtain ⟨pre, post, hsplit, hpre, hpost⟩ := mapGet_some_split hK hm
    simp only [Option.isSome_some, if_pos, hsplit, mapDelete_split e hpre hpost,
      List.filterMap_append, List.filterMap_cons]
    cases ht : e.ticker with
    | none => simp
    | some hdl =>
      simp only [Option.toList_some]
      rw [Multiset.coe_add, Multiset.coe_add, Multiset.coe_eq_coe]
      generalize List.filterMap (fun p => p.2.ticker) pre = A
      generalize List.filterMap (fun p => p.2.ticker) post = B
      refine List.Perm.trans (List.Perm.append_left _ List.perm_append_comm) ?_
      have heq : (A ++ B) ++ ([hdl] ++ s.cancelled) = (A ++ (B ++ [hdl])) ++ s.cancelled := by
        simp [List.append_assoc]
      rw [heq]
      exact List.Perm.append_right _ (List.Perm.append_left _ (List.perm_append_singleton hdl B))

/-- `finishTicker` preserves the timer-accounting invariant. -/
theorem tInv_finishTicker (s : TrackerState) (id : String) (lab : Option String) (now : Nat)
    (h : TInv s) : TInv (finishTicker s id lab now).1 := by
  obtain ⟨hK, hN, hB, hC⟩ := h
  refine ⟨invK_finishTicker s id lab now hK, ?_, ?_, ?_⟩ <;>
    simp only [handleBag_finishTicker s id lab now hK, finishTicker_timers] <;> assumption

/-- The keys after `mapSet`: unchanged on overwrite, the new key appended
on fresh insert. -/
theorem keys_mapSet (m : List (String × Entry)) (k : String) (v : Entry) :
    (mapSet m k v).map Prod.fst =
      match mapGet m k with
      | none => m.map Prod.fst ++ [k]
      | some _ => m.map Prod.fst := by
  induction m with
  | nil => simp [mapSet, mapGet]
  | cons p rest ih =>
    obtain ⟨k1, v1⟩ := p
    by_cases hk : k1 = k
    · subst hk
      simp [mapSet, mapGet]
    · simp only [mapSet, if_neg hk, mapGet, List.map_cons, ih]
      cases mapGet rest k <;> simp

/-- `mapSet` preserves key uniqueness. -/
theorem invK_mapSet {m : List (String × Entry)} {k : String} (v : Entry)
    (h : (m.map Prod.fst).Nodup) : ((mapSet m k v).map Prod.fst).Nodup := by
  rw [keys_mapSet]
  cases hm : mapGet m k with
  | some e => exact h
  | none =>
    rw [List.nodup_append]
    refine ⟨h, List.nodup_singleton k, ?_⟩
    intro a ha hmem
    simp only [List.mem_singleton] at hmem
    subst hmem
    exact mapGet_eq_none.mp hm ha

/-- The full effect of a subagent dispatch on a fresh id (source lines
138-143): entry registered with the dispatch label and time, its ticker
handle pointing at a newly started 5000 ms timer, and one dispatch line. -/
theorem dispatch_effect (s : TrackerState) (i lab name : String) (descr prompt : Option String)
    (now : Nat) (hlab : lab ≠ "") (hi : i ≠ "") (hfresh : mapGet s.toolRuns i = none) :
    handleBlock s (.toolUse (some i) name (some lab) descr prompt) now =
      ({ toolRuns := s.toolRuns ++ [(i, ⟨lab, now, some s.timers.length⟩)],
         timers := s.timers ++ [⟨lab, now, 5000⟩],
         cancelled := s.cancelled },
       [.delegating lab (contextSuffix descr prompt)]) := by
  have hred : handleBlock s (.toolUse (some i) name (some lab) descr prompt) now =
      (if lab = "" || i = "" then genericToolUse s (some i) name now
       else
         let s1 := { s with toolRuns := mapSet s.toolRuns i ⟨lab, now, none⟩ }
         let s2 := startTicker s1 i lab
         (s2, [Output.delegating lab (contextSuffix descr prompt)])) := rfl
  rw [hred, if_neg (by simp [hlab, hi])]
  unfold startTicker
  simp only [mapSet_fresh _ hfresh]
  rw [show mapGet (s.toolRuns ++ [(i, ⟨lab, now, none⟩)]) i = some ⟨lab, now, none⟩ from
    mapGet_append_self _ hfresh]
  simp only [mapSet_append_self _ _ hfresh]

/-- The full effect of a generic tool dispatch on a fresh truthy id
(source lines 144-149): entry registered under the tool name with no
ticker, no timer started, one "Using tool" line. -/
theorem genericToolUse_effect (s : TrackerState) (i name : String) (now : Nat) (hi : i ≠ "")
    (hfresh : mapGet s.toolRuns i = none) :
    genericToolUse s (some i) name now =
      ({ toolRuns := s.toolRuns ++ [(i, ⟨name, now, none⟩)],
         timers := s.timers,
         cancelled := s.cancelled },
       [.usingTool name]) := by
  unfold genericToolUse
  simp only [if_neg hi, mapSet_fresh _ hfresh]

/-- Appending a fresh entry that owns no ticker preserves the invariant. -/
theorem tInv_append_noTicker (s : TrackerState) (i lab : String) (now : Nat)
    (h : TInv s) (hfresh : mapGet s.toolRuns i = none) :
    TInv { s with toolRuns := s.toolRuns ++ [(i, ⟨lab, now, none⟩)] } := by
  obtain ⟨hK, hN, hB, hC⟩ := h
  have hkeys : ((s.toolRuns ++ [(i, (⟨lab, now, none⟩ : Entry))]).map Prod.fst).Nodup := by
    rw [List.map_append, List.nodup_append]
    refine ⟨hK, by simp, ?_⟩
    intro a ha hmem
    simp only [List.map_cons, List.map_nil, List.mem_singleton] at hmem
    subst hmem
    exact mapGet_eq_none.mp hfresh ha
  have hbag : handleBag { s with toolRuns := s.toolRuns ++ [(i, (⟨lab, now, none⟩ : Entry))] } =
      handleBag s := by
    simp [handleBag, regHandles, List.filterMap_append]
  exact ⟨hkeys, by rw [hbag]; exact hN, by rw [hbag]; exact hB, by rw [hbag]; exact hC⟩

/-- The state produced by `dispatch_effect` satisfies the invariant: the
new entry owns the newly started timer. -/
theorem tInv_dispatch_state (s : TrackerState) (i lab : String) (now : Nat)
    (h : TInv s) (hfresh : mapGet s.toolRuns i = none) :
    TInv { toolRuns := s.toolRuns ++ [(i, ⟨lab, now, some s.timers.length⟩)],
           timers := s.timers ++ [⟨lab, now, 5000⟩],
           cancelled := s.cancelled } := by
  obtain ⟨hK, hN, hB, hC⟩ := h
  have hkeys : ((s.toolRuns ++ [(i, (⟨lab, now, some s.timers.length⟩ : Entry))]).map
      Prod.fst).Nodup := by
    rw [List.map_append, List.nodup_append]
    refine ⟨hK, by simp, ?_⟩
    intro a ha hmem
    simp only [List.map_cons, List.map_nil, List.mem_singleton] at hmem
    subst hmem
    exact mapGet_eq_none.mp hfresh ha
  have hbag : handleBag { toolRuns := s.toolRuns ++ [(i, ⟨lab, now, some s.timers.length⟩)],
                          timers := s.timers ++ [⟨lab, now, 5000⟩],
                          cancelled := s.cancelled } =
      handleBag s + {s.timers.length} := by
    simp only [handleBag, regHandles, List.filterMap_append, List.filterMap_cons,
      List.filterMap_nil]
    rw [← Multiset.coe_singleton, Multiset.coe_add, add_assoc, Multiset.coe_add,
      Multiset.coe_add, Multiset.coe_eq_coe]
    generalize List.filterMap (fun p => p.2.ticker) s.toolRuns = A
    rw [List.append_assoc]
    refine List.Perm.append_left A ?_
    exact List.perm_append_comm
  have hLnotin : s.timers.length ∉ handleBag s := by
    intro hmem
    exact absurd (hB _ hmem) (lt_irrefl _)
  refine ⟨hkeys, ?_, ?_, ?_⟩
  · rw [hbag]
    rw [Multiset.nodup_add]
    refine ⟨hN, Multiset.nodup_singleton _, ?_⟩
    rw [Multiset.disjoint_left]
    intro a ha hmem
    simp only [Multiset.mem_singleton] at hmem
    subst hmem
    exact hLnotin ha
  · rw [hbag]
    intro h hmem
    simp only [List.length_append, List.length_cons, List.length_nil]
    rcases Multiset.mem_add.mp hmem with h1 | h1
    · exact Nat.lt_succ_of_lt (hB _ h1)
    · simp only [Multiset.mem_singleton] at h1
      subst h1
      omega
  · rw [hbag]
    simp only [Multiset.card_add, Multiset.card_singleton, hC, List.length_append,
      List.length_cons, List.length_nil]

/-- `startTicker` preserves key uniqueness (it only overwrites). -/
theorem invK_startTicker (s : TrackerState) (id lab : String) (h : InvK s) :
    InvK (startTicker s id lab) := by
  unfold startTicker
  cases hm : mapGet s.toolRuns id with
  | none => exact h
  | some e => exact invK_mapSet _ h

/-- The registry of `handleOtherBlock` is either untouched or the result
of a `finishTicker` call. -/
theorem handleOtherBlock_state (s : TrackerState) (content : Option JSValue)
    (toolUseId : Option String) (now : Nat) :
    (handleOtherBlock s content toolUseId now).1 = s ∨
      ∃ t l, (handleOtherBlock s content toolUseId now).1 = (finishTicker s t l now).1 := by
  unfold handleOtherBlock
  cases toolUseId with
  | none => left; rfl
  | some t =>
    by_cases ht : t = ""
    · left; simp [ht]
    · right
      exact ⟨t, (mapGet s.toolRuns t).map Entry.label, by simp [ht]⟩

/-- The registry of a successfully handled stream event is either
untouched or the result of a `finishTicker` call. -/
theorem handleStreamEvent_state (s : TrackerState) (fields : JSFields) (now : Nat)
    (r : TrackerState × List Output) (h : handleStreamEvent s fields now = .ok r) :
    r.1 = s ∨ ∃ t l, r.1 = (finishTicker s t l now).1 := by
  unfold handleStreamEvent at h
  by_cases hc : (asStr (lookupD fields "type")).data.take 11 = "tool_result".data
  · rw [if_pos hc] at h
    cases htr : trimE (finalProgress fields) with
    | error e =>
      rw [htr] at h
      exact absurd h (by simp)
    | ok p =>
      rw [htr] at h
      cases hti : asStrOpt (lookupD fields "tool_use_id") with
      | some t =>
        rw [hti] at h
        dsimp only at h
        by_cases hcond : (t != "" && asStr (lookupD fields "type") = "tool_result") = true
        · rw [if_pos hcond] at h
          right
          exact ⟨t, some (labelFor s (some t)), by rw [← Except.ok.inj h]⟩
        · rw [if_neg hcond] at h
          left
          rw [← Except.ok.inj h]
      | none =>
        rw [hti] at h
        dsimp only at h
        left
        rw [← Except.ok.inj h]
  · rw [if_neg hc] at h
    left
    rw [← Except.ok.inj h]

/-- Whether a `tool_use` block would not overwrite a registered id: its id
is falsy or absent from the registry. This is the precondition under which
the tracker cannot orphan a ticker. -/
def blockFreshB (s : TrackerState) : Block → Bool
  | .toolUse (some i) _ _ _ _ => i = "" || (mapGet s.toolRuns i).isNone
  | _ => true

/-- Freshness of every dispatch in a block list, threaded through the
intermediate states. -/
def blocksFreshB (s : TrackerState) : List Block → Nat → Bool
  | [], _ => true
  | b :: bs, now => blockFreshB s b && blocksFreshB (handleBlock s b now).1 bs now

/-- Freshness of every dispatch inside one message. -/
def msgFreshB (s : TrackerState) (m : Message) (now : Nat) : Bool :=
  match m with
  | .assistant blocks => blocksFreshB s blocks now
  | _ => true

/-- Freshness of every dispatch along a whole event sequence. -/
def traceFreshB (s : TrackerState) : List (Message × Nat) → Bool
  | [] => true
  | (m, now) :: rest =>
    msgFreshB s m now &&
      (match processMessage s m now with
       | .ok r => traceFreshB r.1 rest
       | .error _ => true)

/-- `handleBlock` preserves key uniqueness unconditionally. -/
theorem invK_handleBlock (s : TrackerState) (b : Block) (now : Nat) (h : InvK s) :
    InvK (handleBlock s b now).1 := by
  cases b with
  | text t => exact h
  | toolUse id name subag descr prompt =>
    have hgen : InvK (genericToolUse s id name now).1 := by
      unfold genericToolUse
      cases id with
      | none => exact h
      | some i =>
        by_cases hi : i = ""
        · simpa [hi] using h
        · simpa [hi] using invK_mapSet _ h
    cases subag with
    | none => exact hgen
    | some lab =>
      cases id with
      | none => exact hgen
      | some i =>
        by_cases hcond : lab = "" ∨ i = ""
        · have : handleBlock s (.toolUse (some i) name (some lab) descr prompt) now =
              genericToolUse s (some i) name now := by
            have hred : handleBlock s (.toolUse (some i) name (some lab) descr prompt) now =
                (if lab = "" || i = "" then genericToolUse s (some i) name now
                 else
                   let s1 := { s with toolRuns := mapSet s.toolRuns i ⟨lab, now, none⟩ }
                   let s2 := startTicker s1 i lab
                   (s2, [Output.delegating lab (contextSuffix descr prompt)])) := rfl
            rw [hred, if_pos (by simpa using hcond)]
          rw [this]
          exact hgen
        · push_neg at hcond
          have hred : handleBlock s (.toolUse (some i) name (some lab) descr prompt) now =
              (if lab = "" || i = "" then genericToolUse s (some i) name now
               else
                 let s1 := { s with toolRuns := mapSet s.toolRuns i ⟨lab, now, none⟩ }
                 let s2 := startTicker s1 i lab
                 (s2, [Output.delegating lab (contextSuffix descr prompt)])) := rfl
          rw [hred, if_neg (by simp [hcond.1, hcond.2])]
          exact invK_startTicker _ _ _ (invK_mapSet _ h)
  | other content toolUseId =>
    have hred : handleBlock s (.other content toolUseId) now =
        handleOtherBlock s content toolUseId now := rfl
    rw [hred]
    rcases handleOtherBlock_state s content toolUseId now with heq | ⟨t, l, heq⟩
    · rw [heq]; exact h
    · rw [heq]; exact invK_finishTicker _ _ _ _ h

/-- `genericToolUse` preserves the timer-accounting invariant on a
non-registered (or falsy) id. -/
theorem tInv_genericToolUse (s : TrackerState) (id : Option String) (name : String) (now : Nat)
    (h : TInv s) (hf : ∀ i, id = some i → i ≠ "" → mapGet s.toolRuns i = none) :
    TInv (genericToolUse s id name now).1 := by
  cases id with
  | none => exact h
  | some i =>
    have hred : (genericToolUse s (some i) name now).1 =
        (if i = "" then s else { s with toolRuns := mapSet s.toolRuns i ⟨name, now, none⟩ }) :=
      rfl
    rw [hred]
    by_cases hi : i = ""
    · rw [if_pos hi]; exact h
    · rw [if_neg hi]
      have hfresh := hf i rfl hi
      rw [mapSet_fresh _ hfresh]
      exact tInv_append_noTicker s i name now h hfresh

/-- `handleBlock` preserves the timer-accounting invariant when the block
does not redispatch a registered id. -/
theorem tInv_handleBlock (s : TrackerState) (b : Block) (now : Nat) (h : TInv s)
    (hf : blockFreshB s b = true) : TInv (handleBlock s b now).1 := by
  cases b with
  | text t => exact h
  | toolUse id name subag descr prompt =>
    have hfi : ∀ i, id = some i → i ≠ "" → mapGet s.toolRuns i = none := by
      intro i hid hi
      subst hid
      simpa [blockFreshB, hi] using hf
    cases subag with
    | none => exact tInv_genericToolUse s id name now h hfi
    | some lab =>
      cases id with
      | none => exact tInv_genericToolUse s none name now h (by intro i hid; cases hid)
      | some i =>
        have hred : handleBlock s (.toolUse (some i) name (some lab) descr prompt) now =
            (if lab = "" || i = "" then genericToolUse s (some i) name now
             else
               let s1 := { s with toolRuns := mapSet s.toolRuns i ⟨lab, now, none⟩ }
               let s2 := startTicker s1 i lab
               (s2, [Output.delegating lab (contextSuffix descr prompt)])) := rfl
        rw [hred]
        by_cases hcond : lab = "" ∨ i = ""
        · rw [if_pos (by simpa using hcond)]
          exact tInv_genericToolUse s (some i) name now h hfi
        · push_neg at hcond
          have hfresh := hfi i rfl hcond.2
          have heff := dispatch_effect s i lab name descr prompt now hcond.1 hcond.2 hfresh
          rw [hred] at heff
          rw [if_neg (by simp [hcond.1, hcond.2])] at heff ⊢
          rw [heff]
          exact tInv_dispatch_state s i lab now h hfresh
  | other content toolUseId =>
    have hred : handleBlock s (.other content toolUseId) now =
        handleOtherBlock s content toolUseId now := rfl
    rw [hred]
    rcases handleOtherBlock_state s content toolUseId now with heq | ⟨t, l, heq⟩
    · rw [heq]; exact h
    · rw [heq]; exact tInv_finishTicker _ _ _ _ h

/-- `handleBlocks` preserves key uniqueness. -/
theorem invK_handleBlocks (bs : List Block) (s : TrackerState) (now : Nat) (h : InvK s) :
    InvK (handleBlocks s bs now).1 := by
  induction bs generalizing s with
  | nil => exact h
  | cons b rest ih =>
    have hred : (handleBlocks s (b :: rest) now).1 =
        (handleBlocks (handleBlock s b now).1 rest now).1 := rfl
    rw [hred]
    exact ih _ (invK_handleBlock s b now h)

/-- `handleBlocks` preserves the timer-accounting invariant on fresh
dispatches. -/
theorem tInv_handleBlocks (bs : List Block) (s : TrackerState) (now : Nat) (h : TInv s)
    (hf : blocksFreshB s bs now = true) : TInv (handleBlocks s bs now).1 := by
  induction bs generalizing s with
  | nil => exact h
  | cons b rest ih =>
    have hred : (handleBlocks s (b :: rest) now).1 =
        (handleBlocks (handleBlock s b now).1 rest now).1 := rfl
    rw [hred]
    simp only [blocksFreshB, Bool.and_eq_true] at hf
    exact ih _ (tInv_handleBlock s b now h hf.1) hf.2

/-- `processMessage` preserves key uniqueness. -/
theorem invK_processMessage (s : TrackerState) (m : Message) (now : Nat)
    (r : TrackerState × List Output) (h : InvK s) (hp : processMessage s m now = .ok r) :
    InvK r.1 := by
  cases m with
  | assistant blocks =>
    have : r = handleBlocks s blocks now := Except.ok.inj hp.symm
    rw [this]
    exact invK_handleBlocks blocks s now h
  | streamEvent fields =>
    rcases handleStreamEvent_state s fields now r hp with heq | ⟨t, l, heq⟩
    · rw [heq]; exact h
    · rw [heq]; exact invK_finishTicker _ _ _ _ h
  | result ms cost =>
    have : r = (s, [.durationLine ms, .costLine (toFixed4 cost)]) := Except.ok.inj hp.symm
    rw [this]
    exact h
  | other =>
    have : r = (s, []) := Except.ok.inj hp.symm
    rw [this]
    exact h

/-- `processMessage` preserves the timer-accounting invariant on fresh
dispatches. -/
theorem tInv_processMessage (s : TrackerState) (m : Message) (now : Nat)
    (r : TrackerState × List Output) (h : TInv s) (hf : msgFreshB s m now = true)
    (hp : processMessage s m now = .ok r) : TInv r.1 := by
  cases m with
  | assistant blocks =>
    have : r = handleBlocks s blocks now := Except.ok.inj hp.symm
    rw [this]
    exact tInv_handleBlocks blocks s now h (by simpa [msgFreshB] using hf)
  | streamEvent fields =>
    rcases handleStreamEvent_state s fields now r hp with heq | ⟨t, l, heq⟩
    · rw [heq]; exact h
    · rw [heq]; exact tInv_finishTicker _ _ _ _ h
  | result ms cost =>
    have : r = (s, [.durationLine ms, .costLine (toFixed4 cost)]) := Except.ok.inj hp.symm
    rw [this]
    exact h
  | other =>
    have : r = (s, []) := Except.ok.inj hp.symm
    rw [this]
    exact h

/-- `runTrace` preserves key uniqueness. -/
theorem invK_runTrace (tr : List (Message × Nat)) (s : TrackerState)
    (r : TrackerState × List Output) (h : InvK s) (hp : runTrace s tr = .ok r) : InvK r.1 := by
  induction tr generalizing s r with
  | nil =>
    have : r = (s, []) := Except.ok.inj hp.symm
    rw [this]
    exact h
  | cons p rest ih =>
    obtain ⟨m, now⟩ := p
    unfold runTrace at hp
    cases h1 : processMessage s m now with
    | error e => rw [h1] at hp; exact absurd hp (by simp)
    | ok r1 =>
      rw [h1] at hp
      dsimp only at hp
      cases h2 : runTrace r1.1 rest with
      | error e => rw [h2] at hp; exact absurd hp (by simp)
      | ok r2 =>
        rw [h2] at hp
        have hr : r = (r2.1, r1.2 ++ r2.2) := Except.ok.inj hp.symm
        rw [hr]
        exact ih r1.1 r2 (invK_processMessage s m now r1 h h1) h2

/-- `runTrace` preserves the timer-accounting invariant on fresh traces. -/
theorem tInv_runTrace (tr : List (Message × Nat)) (s : TrackerState)
    (r : TrackerState × List Output) (h : TInv s) (hf : traceFreshB s tr = true)
    (hp : runTrace s tr = .ok r) : TInv r.1 := by
  induction tr generalizing s r with
  | nil =>
    have : r = (s, []) := Except.ok.inj hp.symm
    rw [this]
    exact h
  | cons p rest ih =>
    obtain ⟨m, now⟩ := p
    unfold runTrace at hp
    unfold traceFreshB at hf
    rw [Bool.and_eq_true] at hf
    cases h1 : processMessage s m now with
    | error e => rw [h1] at hp; exact absurd hp (by simp)
    | ok r1 =>
      rw [h1] at hp
      rw [h1] at hf
      dsimp only at hp
      dsimp only at hf
      cases h2 : runTrace r1.1 rest with
      | error e => rw [h2] at hp; exact absurd hp (by simp)
      | ok r2 =>
        rw [h2] at hp
        have hr : r = (r2.1, r1.2 ++ r2.2) := Except.ok.inj hp.symm
        rw [hr]
        exact ih r1.1 r2 (tInv_processMessage s m now r1 h hf.1 h1) hf.2 h2

/-- `cleanupIds` preserves the timer-accounting invariant. -/
theorem tInv_cleanupIds (l : List String) (s : TrackerState) (h : TInv s) :
    TInv (cleanupIds s l) := by
  induction l generalizing s with
  | nil => exact h
  | cons i rest ih =>
    have hred : cleanupIds s (i :: rest) = cleanupIds (finishTicker s i none 0).1 rest := rfl
    rw [hred]
    exact ih _ (tInv_finishTicker s i none 0 h)

/-- Iterating `finishTicker` over exactly the registered keys empties the
registry (given unique keys). -/
theorem cleanupIds_empty (l : List String) (s : TrackerState) (h : InvK s)
    (hl : s.toolRuns.map Prod.fst = l) : (cleanupIds s l).toolRuns = [] := by
  induction l generalizing s with
  | nil =>
    have : s.toolRuns = [] := List.map_eq_nil_iff.mp hl
    simpa [cleanupIds] using this
  | cons i rest ih =>
    have hred : cleanupIds s (i :: rest) = cleanupIds (finishTicker s i none 0).1 rest := rfl
    rw [hred]
    cases htr : s.toolRuns with
    | nil => rw [htr] at hl; exact absurd hl (by simp)
    | cons p tail =>
      obtain ⟨k, e⟩ := p
      rw [htr] at hl
      simp only [List.map_cons, List.cons.injEq] at hl
      obtain ⟨hk, htail⟩ := hl
      subst hk
      have hnodup : (s.toolRuns.map Prod.fst).Nodup := h
      rw [htr, List.map_cons, List.nodup_cons] at hnodup
      have hget : mapGet s.toolRuns k = some e := by
        rw [htr]
        simp [mapGet]
      have hdel : mapDelete s.toolRuns k = tail := by
        rw [htr]
        have := @mapDelete_split [] tail k e (by simp [mapGet])
          (mapGet_eq_none.mpr hnodup.1)
        simpa using this
      apply ih
      · exact invK_finishTicker s k none 0 h
      · rw [finishTicker_toolRuns, hget]
        simpa [hdel] using htail

/-- After `runCleanup` the registry is empty (given unique keys). -/
theorem runCleanup_empty (s : TrackerState) (h : InvK s) : (runCleanup s).toolRuns = [] :=
  cleanupIds_empty _ s h rfl

/-- The C1 no-timer-leak theorem, in the form the code satisfies: the
registry is always empty after cleanup, and when no registered id is ever
dispatched a second time, the cleared-handle count equals the
started-timer count. -/
theorem cleanup_counts (s : TrackerState) (h : TInv s) (hempty : (runCleanup s).toolRuns = []) :
    (runCleanup s).cancelled.length = (runCleanup s).timers.length := by
  have hfin : TInv (runCleanup s) := tInv_cleanupIds _ s h
  obtain ⟨hK, hN, hB, hC⟩ := hfin
  have hbag : handleBag (runCleanup s) = ((runCleanup s).cancelled : Multiset Nat) := by
    simp [handleBag, regHandles, hempty]
  rw [hbag] at hC
  simpa using hC

/-- A trace that dispatches the same correlation id twice with no
completion in between: the overwritten entry's timer is orphaned. -/
def cexTraceC1 : List (Message × Nat) :=
  [(.assistant [.toolUse (some "t1") "Task" (some "researcher") none none], 1000),
   (.assistant [.toolUse (some "t1") "Task" (some "researcher") none none], 2000)]

/-- The post-cleanup state of the double-dispatch trace. -/
def cexStateC1 : TrackerState :=
  match runTrace initState cexTraceC1 with
  | .ok r => runCleanup r.1
  | .error _ => initState

/-- C1 counterexample: on the double-dispatch trace the run completes, the
registry is empty after cleanup, but two timers were started
(`setInterval` called twice) while only one was ever cancelled
(`clearInterval` called once) — the cancel count does not equal the start
count, refuting the claim as stated. -/
theorem c1_noTimerLeak_cex :
    (runTrace initState cexTraceC1).isOk = true ∧ cexStateC1.toolRuns = [] ∧
      cexStateC1.timers.length = 2 ∧ cexStateC1.cancelled.length = 1 := by
  refine ⟨rfl, rfl, rfl, rfl⟩

/-- C1 (amended): for every event sequence the runtime accepts, after the
end-of-run cleanup the registry is empty; and provided no correlation id
is dispatched a second time while still registered, every started timer
has been cancelled (cancel count equals start count). -/
theorem c1_noTimerLeak (tr : List (Message × Nat)) (s : TrackerState) (out : List Output)
    (hr : runTrace initState tr = .ok (s, out)) :
    (runCleanup s).toolRuns = [] ∧
      (traceFreshB initState tr = true →
        (runCleanup s).cancelled.length = (runCleanup s).timers.length) := by
  have hK : InvK s :=
    invK_runTrace tr initState (s, out) (by simp [InvK, initState]) hr
  refine ⟨runCleanup_empty s hK, ?_⟩
  intro hf
  have hT : TInv s := tInv_runTrace tr initState (s, out) tInv_initState hf hr
  exact cleanup_counts s hT (runCleanup_empty s hK)

/-- A well-behaved session: one subagent dispatch, one progress delta, one
completion, the run summary, and one generic tool use left uncompleted. -/
def wTraceC1 : List (Message × Nat) :=
  [(.assistant [.toolUse (some "t1") "Task" (some "coder") (some "build the CLI") none], 1000),
   (.streamEvent (fieldsOf [("type", .vstr "tool_result_delta"),
      ("tool_use_id", .vstr "t1"),
      ("delta", .vobj (fieldsOf [("text", .vstr "50% done")]))]), 3000),
   (.assistant [.other (some (.vstr "build finished")) (some "t1")], 6200),
   (.result 1200 341, 6300),
   (.assistant [.toolUse (some "t2") "Bash" none none none], 6400)]

/-- Witness for the amended C1 theorem at a concrete fresh trace. -/
theorem c1_noTimerLeak_witness :
    (runCleanup ⟨[("t2", ⟨"Bash", 6400, none⟩)], [⟨"coder", 1000, 5000⟩], [0]⟩).toolRuns = [] ∧
      (runCleanup ⟨[("t2", ⟨"Bash", 6400, none⟩)], [⟨"coder", 1000, 5000⟩],
        [0]⟩).cancelled.length =
      (runCleanup ⟨[("t2", ⟨"Bash", 6400, none⟩)], [⟨"coder", 1000, 5000⟩],
        [0]⟩).timers.length := by
  have h := c1_noTimerLeak wTraceC1
    ⟨[("t2", ⟨"Bash", 6400, none⟩)], [⟨"coder", 1000, 5000⟩], [0]⟩
    [.delegating "coder" " — build the CLI", .update "coder" "50% done",
     .resultLine "coder" "build finished", .returned "coder" 5,
     .durationLine 1200, .costLine "0.0341", .usingTool "Bash"]
    rfl
  exact ⟨h.1, h.2 rfl⟩

/-- Looking up the key just written by `mapSet` yields the new entry. -/
theorem mapGet_mapSet_self (m : List (String × Entry)) (k : String) (v : Entry) :
    mapGet (mapSet m k v) k = some v := by
  induction m with
  | nil => simp [mapSet, mapGet]
  | cons p rest ih =>
    obtain ⟨k1, v1⟩ := p
    by_cases hk : k1 = k
    · simp [mapSet, mapGet, hk]
    · simp [mapSet, mapGet, hk, ih]

/-- `startTicker` on a found entry: one 5000 ms timer is started with the
entry's start time, and the entry is given its handle. -/
theorem startTicker_found (s : TrackerState) (id lab : String) (e : Entry)
    (hm : mapGet s.toolRuns id = some e) :
    startTicker s id lab =
      { s with
        timers := s.timers ++ [⟨lab, e.start, 5000⟩]
        toolRuns := mapSet s.toolRuns id { e with ticker := some s.timers.length } } := by
  unfold startTicker
  rw [hm]

/-- C2 (amended): a dispatch whose payload carries a truthy delegated-role
identifier and id registers the role as label with `startedAt = now`,
emits one dispatch line carrying the label and context suffix, and starts
one periodic 5000 ms timer whose handle the entry owns; a dispatch with no
role identifier registers the generic tool name as label and emits the
"Using tool" line, but starts no timer. -/
theorem c2_dispatch (s : TrackerState) (i lab name : String) (descr prompt : Option String)
    (now : Nat) (hlab : lab ≠ "") (hi : i ≠ "") :
    mapGet (handleBlock s (.toolUse (some i) name (some lab) descr prompt) now).1.toolRuns i =
        some ⟨lab, now, some s.timers.length⟩ ∧
      (handleBlock s (.toolUse (some i) name (some lab) descr prompt) now).1.timers =
        s.timers ++ [⟨lab, now, 5000⟩] ∧
      (handleBlock s (.toolUse (some i) name (some lab) descr prompt) now).2 =
        [.delegating lab (contextSuffix descr prompt)] ∧
      (handleBlock s (.toolUse (some i) name none descr prompt) now).1.timers = s.timers ∧
      mapGet (handleBlock s (.toolUse (some i) name none descr prompt) now).1.toolRuns i =
        some ⟨name, now, none⟩ ∧
      (handleBlock s (.toolUse (some i) name none descr prompt) now).2 = [.usingTool name] := by
  have hred : handleBlock s (.toolUse (some i) name (some lab) descr prompt) now =
      (if lab = "" || i = "" then genericToolUse s (some i) name now
       else
         let s1 := { s with toolRuns := mapSet s.toolRuns i ⟨lab, now, none⟩ }
         let s2 := startTicker s1 i lab
         (s2, [Output.delegating lab (contextSuffix descr prompt)])) := rfl
  have hredg : handleBlock s (.toolUse (some i) name none descr prompt) now =
      genericToolUse s (some i) name now := rfl
  have hfound : mapGet (mapSet s.toolRuns i (⟨lab, now, none⟩ : Entry)) i =
      some ⟨lab, now, none⟩ := mapGet_mapSet_self s.toolRuns i _
  have hst := startTicker_found { s with toolRuns := mapSet s.toolRuns i ⟨lab, now, none⟩ }
    i lab ⟨lab, now, none⟩ hfound
  have hgen : genericToolUse s (some i) name now =
      ({ s with toolRuns := mapSet s.toolRuns i ⟨name, now, none⟩ }, [.usingTool name]) := by
    unfold genericToolUse
    dsimp only
    rw [if_neg hi]
  refine ⟨?_, ?_, ?_, ?_, ?_, ?_⟩
  · rw [hred, if_neg (by simp [hlab, hi])]
    dsimp only
    rw [hst]
    dsimp only
    exact mapGet_mapSet_self _ i _
  · rw [hred, if_neg (by simp [hlab, hi])]
    dsimp only
    rw [hst]
  · rw [hred, if_neg (by simp [hlab, hi])]
  · rw [hredg, hgen]
  · rw [hredg, hgen]
    exact mapGet_mapSet_self _ i _
  · rw [hredg, hgen]

/-- C2 counterexample: a dispatch that carries no delegated-role
identifier (a plain Bash tool use) registers its entry under the tool
name, emits its line — but starts no progress timer at all, refuting the
claim that every dispatch starts one. -/
theorem c2_dispatch_cex :
    (handleBlock initState (.toolUse (some "t1") "Bash" none none none) 7).1.timers = [] ∧
      mapGet (handleBlock initState
        (.toolUse (some "t1") "Bash" none none none) 7).1.toolRuns "t1" =
        some ⟨"Bash", 7, none⟩ ∧
      (handleBlock initState (.toolUse (some "t1") "Bash" none none none) 7).2 =
        [.usingTool "Bash"] := ⟨rfl, rfl, rfl⟩

/-- Witness for the amended C2 theorem at a concrete dispatch. -/
theorem c2_dispatch_witness :
    mapGet (handleBlock initState
        (.toolUse (some "t1") "Task" (some "researcher") (some "dig in") none) 42).1.toolRuns
        "t1" = some ⟨"researcher", 42, some 0⟩ ∧
      (handleBlock initState
        (.toolUse (some "t1") "Task" (some "researcher") (some "dig in") none) 42).1.timers =
        [⟨"researcher", 42, 5000⟩] ∧
      (handleBlock initState
        (.toolUse (some "t1") "Task" (some "researcher") (some "dig in") none) 42).2 =
        [.delegating "researcher" " — dig in"] := by
  have h := c2_dispatch initState "t1" "researcher" "Task" (some "dig in") none 42
    (by decide) (by decide)
  refine ⟨?_, ?_, ?_⟩
  · simpa [initState] using h.1
  · simpa [initState] using h.2.1
  · have h3 := h.2.2.1
    rw [h3]
    rfl

/-- C3: the normalization round-trips of the spec: a bare string, a single
text-bearing object, and a mixed sequence normalize as claimed; an empty
sequence or one of only unrecognized items yields the empty string, and an
empty normalized result produces no output line (and no other effect). -/
theorem c3_normalization :
    extractText (.vstr "hello") = "hello" ∧
      extractText (.vobj (fieldsOf [("text", .vstr "hello")])) = "hello" ∧
      extractText (.varr (arrOf [.vstr "a", .vobj (fieldsOf [("text", .vstr "b")]), .vstr "c"])) =
        "a b c" ∧
      extractText (.varr .nil) = "" ∧
      extractText (.varr (arrOf [.vnum 42, .vnull, .vobj (fieldsOf [("foo", .vstr "x")])])) =
        "" ∧
      handleOtherBlock initState (some (.varr .nil)) (some "t9") 0 = (initState, []) := by
  refine ⟨by decide, by decide, by decide, by decide, by decide, by decide⟩

/-- C10: an element that is neither a string nor a text-bearing object
contributes an empty string that still takes part in the single-space
join, and only the ends are trimmed: the sequence a, 42, c normalizes to
"a  c" with two interior spaces, not "a c". The general shape of the
array case and the empty contribution of an unrecognized element are
stated alongside. -/
theorem c10_joinGaps :
    extractText (.varr (arrOf [.vstr "a", .vnum 42, .vstr "c"])) = "a  c" ∧
      "a  c" ≠ "a c" ∧
      (∀ xs, extractText (.varr xs) = jsTrim (String.intercalate " " (arrTexts xs))) ∧
      arrElemText (.vnum 42) = "" := by
  refine ⟨by decide, by decide, fun xs => rfl, by decide⟩

/-- A deleted key no longer resolves. -/
theorem mapGet_mapDelete_self (m : List (String × Entry)) (k : String) :
    mapGet (mapDelete m k) k = none := by
  rw [mapGet_eq_none]
  intro hmem
  obtain ⟨p, hp, hfst⟩ := List.mem_map.mp hmem
  have hpred := (List.mem_filter.mp hp).2
  have hne : p.1 ≠ k := by simpa using hpred
  exact hne hfst

/-- A completion block for an unregistered truthy id: no state change, no
"returned" line, the result text (if any) reported under the generic
"subagent" label. -/
theorem handleOtherBlock_unknown (s : TrackerState) (t : String) (c : JSValue) (now : Nat)
    (ht : t ≠ "") (hu : mapGet s.toolRuns t = none) :
    handleOtherBlock s (some c) (some t) now =
      (s, if extractText c = "" then [] else [Output.resultLine "subagent" (extractText c)]) := by
  unfold handleOtherBlock
  dsimp only
  rw [if_neg ht]
  have hfin : finishTicker s t ((mapGet s.toolRuns t).map Entry.label) now = (s, []) := by
    unfold finishTicker
    rw [hu]
  rw [hfin]
  simp [labelFor, ht, hu, Option.getD]

/-- A completion block for a registered truthy id hands the registry to
`finishTicker` with the stored label. -/
theorem handleOtherBlock_fst (s : TrackerState) (c : Option JSValue) (t : String) (now : Nat)
    (ht : t ≠ "") :
    (handleOtherBlock s c (some t) now).1 =
      (finishTicker s t ((mapGet s.toolRuns t).map Entry.label) now).1 := by
  unfold handleOtherBlock
  dsimp only
  rw [if_neg ht]

/-- A progress stream event for an unregistered truthy id: accepted
without error, no state change, the progress text (if any) reported under
the generic "subagent" label. -/
theorem handleStreamEvent_unknown (s : TrackerState) (t : String) (dv : JSValue) (now : Nat)
    (ht : t ≠ "") (hu : mapGet s.toolRuns t = none) :
    handleStreamEvent s (fieldsOf [("type", .vstr "tool_result"),
        ("tool_use_id", .vstr t), ("delta", dv)]) now =
      .ok (s, if jsTrim (deltaProgress dv) = "" then []
        else [Output.update "subagent" (jsTrim (deltaProgress dv))]) := by
  unfold handleStreamEvent
  rw [if_pos (by simp [fieldsOf, lookupD, asStr])]
  have hdp : finalProgress (fieldsOf [("type", .vstr "tool_result"),
      ("tool_use_id", .vstr t), ("delta", dv)]) = .vstr (deltaProgress dv) := by
    unfold finalProgress otdTextOf
    simp [fieldsOf, lookupD, optChain, jsTruthy]
  rw [hdp]
  have htid : asStrOpt (lookupD (fieldsOf [("type", .vstr "tool_result"),
      ("tool_use_id", .vstr t), ("delta", dv)]) "tool_use_id") = some t := by
    simp [fieldsOf, lookupD, asStrOpt]
  rw [show trimE (.vstr (deltaProgress dv)) = .ok (jsTrim (deltaProgress dv)) from rfl]
  dsimp only
  rw [htid]
  dsimp only
  rw [if_pos (by simp [fieldsOf, lookupD, asStr, ht])]
  have hlab : labelFor s (some t) = "subagent" := by
    simp [labelFor, ht, hu]
  have hfin : finishTicker s t (some (labelFor s (some t))) now = (s, []) := by
    unfold finishTicker
    rw [hu]
  rw [hfin, hlab]
  simp

/-- C4 (as claimed): progress and completion events for a correlationId
never seen by a dispatch do not throw, leave the registry and timers
untouched, and use the generic "subagent" fallback label for any output. -/
theorem c4_unknownId (s : TrackerState) (t : String) (c dv : JSValue) (now : Nat)
    (ht : t ≠ "") (hu : mapGet s.toolRuns t = none) :
    handleOtherBlock s (some c) (some t) now =
      (s, if extractText c = "" then [] else [Output.resultLine "subagent" (extractText c)]) ∧
      handleStreamEvent s (fieldsOf [("type", .vstr "tool_result"),
          ("tool_use_id", .vstr t), ("delta", dv)]) now =
        .ok (s, if jsTrim (deltaProgress dv) = "" then []
          else [Output.update "subagent" (jsTrim (deltaProgress dv))]) :=
  ⟨handleOtherBlock_unknown s t c now ht hu, handleStreamEvent_unknown s t dv now ht hu⟩

/-- Witness for C4 at a concrete state and payloads. -/
theorem c4_unknownId_witness :
    handleOtherBlock initState (some (.vstr "late result")) (some "ghost") 5 =
      (initState, [Output.resultLine "subagent" "late result"]) ∧
      handleStreamEvent initState (fieldsOf [("type", .vstr "tool_result"),
          ("tool_use_id", .vstr "ghost"),
          ("delta", .vobj (fieldsOf [("text", .vstr "still going")]))]) 5 =
        .ok (initState, [Output.update "subagent" "still going"]) := by
  have h := c4_unknownId initState "ghost" (.vstr "late result")
    (.vobj (fieldsOf [("text", .vstr "still going")])) 5 (by decide) (by decide)
  constructor
  · rw [h.1]
    rfl
  · rw [h.2]
    rfl

/-- C5: a second completion for the same correlationId behaves exactly
like a completion for an unknown id: no error, no registry mutation, no
second "returned after N seconds" line — only the generic-label result
text, if any. -/
theorem c5_secondCompletion (s : TrackerState) (t : String) (e : Entry) (c1 c2 : JSValue)
    (n1 n2 : Nat) (ht : t ≠ "") (hreg : mapGet s.toolRuns t = some e) :
    handleOtherBlock (handleOtherBlock s (some c1) (some t) n1).1 (some c2) (some t) n2 =
      ((handleOtherBlock s (some c1) (some t) n1).1,
        if extractText c2 = "" then [] else [Output.resultLine "subagent" (extractText c2)]) ∧
      ∀ l k, Output.returned l k ∉
        (handleOtherBlock (handleOtherBlock s (some c1) (some t) n1).1
          (some c2) (some t) n2).2 := by
  have hgone : mapGet (handleOtherBlock s (some c1) (some t) n1).1.toolRuns t = none := by
    rw [handleOtherBlock_fst s (some c1) t n1 ht, finishTicker_toolRuns, hreg]
    simp only [Option.isSome_some, if_pos]
    exact mapGet_mapDelete_self _ t
  have hmain := handleOtherBlock_unknown (handleOtherBlock s (some c1) (some t) n1).1 t c2 n2
    ht hgone
  refine ⟨hmain, ?_⟩
  intro l k hmem
  rw [hmain] at hmem
  by_cases hc : extractText c2 = ""
  · rw [if_pos hc] at hmem
    simp at hmem
  · rw [if_neg hc] at hmem
    simp at hmem

/-- Witness for C5: dispatch, complete, then complete again. -/
theorem c5_secondCompletion_witness :
    handleOtherBlock (handleOtherBlock
        ⟨[("t1", ⟨"coder", 0, some 0⟩)], [⟨"coder", 0, 5000⟩], []⟩
        (some (.vstr "done")) (some "t1") 1000).1 (some (.vstr "done again")) (some "t1") 2000 =
      ((handleOtherBlock ⟨[("t1", ⟨"coder", 0, some 0⟩)], [⟨"coder", 0, 5000⟩], []⟩
        (some (.vstr "done")) (some "t1") 1000).1,
        [Output.resultLine "subagent" "done again"]) := by
  have h := c5_secondCompletion ⟨[("t1", ⟨"coder", 0, some 0⟩)], [⟨"coder", 0, 5000⟩], []⟩
    "t1" ⟨"coder", 0, some 0⟩ (.vstr "done") (.vstr "done again") 1000 2000
    (by decide) (by decide)
  rw [h.1]
  rfl

/-- C6: the label reported at completion is the one stored at dispatch
time — whatever the completion payload contains, both the result line and
the "returned" line carry the registered entry's (truthy) label. -/
theorem c6_labelFixed (s : TrackerState) (t : String) (e : Entry) (c : JSValue) (now : Nat)
    (ht : t ≠ "") (hreg : mapGet s.toolRuns t = some e) (hlabel : e.label ≠ "") :
    (handleOtherBlock s (some c) (some t) now).2 =
      (if extractText c = "" then [] else [Output.resultLine e.label (extractText c)]) ++
        [Output.returned e.label (elapsedSec e.start now)] := by
  unfold handleOtherBlock
  dsimp only
  rw [if_neg ht]
  dsimp only
  rw [finishTicker_out, hreg]
  have hlab : labelFor s (some t) = e.label := by
    simp [labelFor, ht, hreg]
  rw [hlab]
  simp [hlabel]

/-- Witness for C6: dispatched as "researcher", completed with a payload
naming a different role — reported under "researcher". -/
theorem c6_labelFixed_witness :
    (handleOtherBlock ⟨[("t1", ⟨"researcher", 0, some 0⟩)], [⟨"researcher", 0, 5000⟩], []⟩
        (some (.vobj (fieldsOf [("subagent_type", .vstr "coder"),
          ("text", .vstr "switching roles")]))) (some "t1") 1200).2 =
      [Output.resultLine "researcher" "switching roles",
       Output.returned "researcher" 1] := by
  have h := c6_labelFixed ⟨[("t1", ⟨"researcher", 0, some 0⟩)], [⟨"researcher", 0, 5000⟩], []⟩
    "t1" ⟨"researcher", 0, some 0⟩
    (.vobj (fieldsOf [("subagent_type", .vstr "coder"), ("text", .vstr "switching roles")]))
    1200 (by decide) (by decide) (by decide)
  rw [h]
  rfl

/-- Elapsed seconds, as both the ticker and the completion line compute
them, are monotone in the current time. -/
theorem elapsedSec_mono (start : Nat) {a b : Nat} (hab : a ≤ b) :
    elapsedSec start a ≤ elapsedSec start b :=
  Nat.div_le_div_right (Nat.add_le_add_right (Nat.sub_le_sub_right hab start) 500)

/-- C7: every firing of a task's progress ticker reports seconds computed
from the captured start time, so the values of successive ticks are
non-decreasing, and the completion line (computed from the same start)
reports a value at least as large as the last tick. -/
theorem c7_elapsedMonotone (s : TrackerState) (h : Nat) (tm : Timer) (t : String) (e : Entry)
    (lab : String) (t1 t2 t3 : Nat) (htm : s.timers[h]? = some tm)
    (hreg : mapGet s.toolRuns t = some e) (hstart : e.start = tm.start) (hlab : lab ≠ "")
    (h12 : t1 ≤ t2) (h23 : t2 ≤ t3) :
    fireTicker s h t1 = [Output.tick tm.label (elapsedSec tm.start t1)] ∧
      fireTicker s h t2 = [Output.tick tm.label (elapsedSec tm.start t2)] ∧
      (finishTicker s t (some lab) t3).2 = [Output.returned lab (elapsedSec tm.start t3)] ∧
      elapsedSec tm.start t1 ≤ elapsedSec tm.start t2 ∧
      elapsedSec tm.start t2 ≤ elapsedSec tm.start t3 := by
  refine ⟨?_, ?_, ?_, elapsedSec_mono tm.start h12, elapsedSec_mono tm.start h23⟩
  · unfold fireTicker
    rw [htm]
  · unfold fireTicker
    rw [htm]
  · rw [finishTicker_out, hreg]
    dsimp only
    rw [if_neg hlab, hstart]

/-- Witness for C7 at a concrete timer, entry and three times. -/
theorem c7_elapsedMonotone_witness :
    fireTicker ⟨[("t1", ⟨"coder", 1000, some 0⟩)], [⟨"coder", 1000, 5000⟩], []⟩ 0 6000 =
        [Output.tick "coder" 5] ∧
      fireTicker ⟨[("t1", ⟨"coder", 1000, some 0⟩)], [⟨"coder", 1000, 5000⟩], []⟩ 0 11000 =
        [Output.tick "coder" 10] ∧
      (finishTicker ⟨[("t1", ⟨"coder", 1000, some 0⟩)], [⟨"coder", 1000, 5000⟩], []⟩
        "t1" (some "coder") 12000).2 = [Output.returned "coder" 11] ∧
      (5 : Nat) ≤ 10 ∧ (10 : Nat) ≤ 11 := by
  have h := c7_elapsedMonotone ⟨[("t1", ⟨"coder", 1000, some 0⟩)], [⟨"coder", 1000, 5000⟩], []⟩
    0 ⟨"coder", 1000, 5000⟩ "t1" ⟨"coder", 1000, some 0⟩ "coder" 6000 11000 12000
    (by decide) (by decide) rfl (by decide) (by omega) (by omega)
  obtain ⟨h1, h2, h3, h4, h5⟩ := h
  exact ⟨h1, h2, h3, by omega, by omega⟩

/-- The stream event whose processing throws: its `output_text_delta.text`
is a truthy non-string (the number 42), so line 190 assigns it to
`progress` and line 193 calls `.trim()` on a number. -/
def cexEventC8 : JSFields :=
  fieldsOf [("type", .vstr "tool_result"),
    ("output_text_delta", .vobj (fieldsOf [("text", .vnum 42)]))]

/-- C8 counterexample: processing a malformed stream event raises a
TypeError — the tracker is not exception-free on every malformed event. -/
theorem c8_neverThrows_cex :
    processMessage initState (.streamEvent cexEventC8) 0 =
      .error "TypeError: progress.trim is not a function" := rfl

/-- The value `progress` holds at the trim call is either the
delta-derived string or the truthy `output_text_delta.text` value. -/
theorem finalProgress_cases (fields : JSFields) :
    finalProgress fields = .vstr (deltaProgress (lookupD fields "delta")) ∨
      (finalProgress fields = otdTextOf fields ∧ jsTruthy (otdTextOf fields) = true) := by
  unfold finalProgress
  by_cases h1 : deltaProgress (lookupD fields "delta") = ""
  · by_cases h2 : jsTruthy (otdTextOf fields) = true
    · right
      rw [if_pos (by simp [h1, h2])]
      exact ⟨rfl, h2⟩
    · left
      rw [if_neg (by simp [h2])]
  · left
    rw [if_neg (by simp [h1])]

/-- Whether a value is a string or falsy — the shapes of
`output_text_delta.text` that cannot make the trim call throw. -/
def strOrFalsy : JSValue → Bool
  | .vstr _ => true
  | v => !(jsTruthy v)

/-- A truthy string-or-falsy value is a string. -/
theorem strOrFalsy_truthy (v : JSValue) (h1 : strOrFalsy v = true)
    (h2 : jsTruthy v = true) : ∃ str, v = .vstr str := by
  cases v with
  | vstr s => exact ⟨s, rfl⟩
  | vnum n => simp [strOrFalsy, h2] at h1
  | vbool b => simp [strOrFalsy, h2] at h1
  | vnull => simp [jsTruthy] at h2
  | vundefined => simp [jsTruthy] at h2
  | varr xs => simp [strOrFalsy, jsTruthy] at h1
  | vobj fs => simp [strOrFalsy, jsTruthy] at h1

/-- The typing proviso under which the stream branch cannot throw: a
truthy `output_text_delta.text` must be a string. -/
def otdTextGoodB (fields : JSFields) : Bool :=
  strOrFalsy (optChain (lookupD fields "output_text_delta") "text")

/-- The event-wellformedness predicate of the amended C8 claim. -/
def msgGoodB : Message → Bool
  | .streamEvent fields => otdTextGoodB fields
  | _ => true

/-- C8 (amended): processing any event never raises, provided that when a
stream event carries a truthy `output_text_delta.text` it is a string;
arbitrary delta/result/content shapes, missing fields and never-dispatched
ids are all handled without exception. -/
theorem c8_neverThrows (s : TrackerState) (m : Message) (now : Nat)
    (hg : msgGoodB m = true) : (processMessage s m now).isOk = true := by
  cases m with
  | assistant blocks => rfl
  | result ms cost => rfl
  | other => rfl
  | streamEvent fields =>
    have hred : processMessage s (.streamEvent fields) now =
        handleStreamEvent s fields now := rfl
    rw [hred]
    unfold handleStreamEvent
    by_cases hc : (asStr (lookupD fields "type")).data.take 11 = "tool_result".data
    · rw [if_pos hc]
      have htr : ∃ p, trimE (finalProgress fields) = .ok p := by
        rcases finalProgress_cases fields with hfp | ⟨hfp, htruthy⟩
        · exact ⟨jsTrim (deltaProgress (lookupD fields "delta")), by rw [hfp]; rfl⟩
        · have hv : otdTextOf fields =
              optChain (lookupD fields "output_text_delta") "text" := rfl
          obtain ⟨str, hstr⟩ := strOrFalsy_truthy (otdTextOf fields)
            (by rw [hv]; exact hg) htruthy
          exact ⟨jsTrim str, by rw [hfp, hstr]; rfl⟩
      obtain ⟨p, hp⟩ := htr
      rw [hp]
      dsimp only
      cases asStrOpt (lookupD fields "tool_use_id") with
      | some t =>
        dsimp only
        by_cases hcond : (t != "" && asStr (lookupD fields "type") = "tool_result") = true
        · rw [if_pos hcond]
          rfl
        · rw [if_neg hcond]
          rfl
      | none => rfl
    · rw [if_neg hc]
      rfl

/-- Witness for C8: a stream event with a junk delta and a numeric
tool_use_id field is processed without raising. -/
theorem c8_neverThrows_witness :
    (processMessage initState (.streamEvent (fieldsOf [("type", .vstr "tool_result"),
        ("tool_use_id", .vnum 7),
        ("delta", .varr (arrOf [.vnull, .vnum 3, .vobj .nil]))])) 0).isOk = true := by
  exact c8_neverThrows initState (.streamEvent (fieldsOf [("type", .vstr "tool_result"),
    ("tool_use_id", .vnum 7),
    ("delta", .varr (arrOf [.vnull, .vnum 3, .vobj .nil]))])) 0 (by decide)

/-- Whether `pat` occurs as a contiguous run inside `l`. -/
def listHasRun (pat : List Char) : List Char → Bool
  | [] => pat.isEmpty
  | c :: rest => pat.isPrefixOf (c :: rest) || listHasRun pat rest

/-- Substring test used to state which values a rendered line reports. -/
def strContainsSub (s pat : String) : Bool := listHasRun pat.data s.data

/-- C9 counterexample: on run completion with duration 1200 ms and cost
$0.0341, the tracker emits two lines, and no single emitted line reports
both the duration and the cost — the claim of exactly one aggregate line
carrying both is false. -/
theorem c9_runStats_cex :
    processMessage initState (.result 1200 341) 0 =
      .ok (initState, [Output.durationLine 1200, Output.costLine "0.0341"]) ∧
      ([Output.durationLine 1200, Output.costLine "0.0341"].filter (fun o =>
        strContainsSub (render o) "1200" && strContainsSub (render o) "0.0341")).length = 0 ∧
      [Output.durationLine 1200, Output.costLine "0.0341"].length = 2 := by
  refine ⟨rfl, by decide, rfl⟩

/-- C9 (amended): on run completion the statistics are emitted exactly
once, as two consecutive lines — the first reporting the total duration in
ms, the second the total cost with exactly four digits after the decimal
point. -/
theorem c9_runStats (s : TrackerState) (ms cost now : Nat) :
    processMessage s (.result ms cost) now =
      .ok (s, [Output.durationLine ms, Output.costLine (toFixed4 cost)]) ∧
      render (Output.durationLine ms) = "\n⏱️ Total duration: " ++ toString ms ++ "ms" ∧
      render (Output.costLine (toFixed4 cost)) =
        "\n💰 Total cost: $" ++ toString (cost / 10000) ++ "." ++ pad4 cost ∧
      (pad4 cost).length = 4 := by
  refine ⟨rfl, rfl, rfl, rfl⟩
